import Mathlib

/-!
# Verification of the DeepResearchAgentJo retrieval pipeline

Shallow embedding of the pure/coordination logic of `src/main.py`
(an arXiv research-assistant pipeline) and proofs about it.

Python strings are modelled as lists of Unicode code points (`List Nat`);
network calls and the text-understanding service are modelled as explicit
oracle functions passed as parameters (fallible ones return `Except`),
matching the source's `aiohttp` / `strict_json_async` boundaries.
`asyncio.gather` over already-scheduled per-entry tasks is order-preserving,
so a batch of total tasks is a `List.map` and a batch of fallible tasks is
`gatherE` (first failure propagates, as with `return_exceptions=False`).
-/

/-- A Python `str`, as its list of Unicode code points. -/
abbrev PyStr := List Nat

/-- Turn a Lean string literal into the `PyStr` of its code points. -/
def strOf (s : String) : PyStr := s.toList.map Char.toNat

/-- The whitespace set of Python's `str.split()` / `str.strip()`
(Unicode whitespace; also used for the `re` module's `\s`). -/
def isPySpace (c : Nat) : Bool :=
  (9 ≤ c && c ≤ 13) || (28 ≤ c && c ≤ 31) || c == 32 || c == 133 || c == 160 ||
  c == 5760 || (8192 ≤ c && c ≤ 8202) || c == 8232 || c == 8233 ||
  c == 8239 || c == 8287 || c == 12288

/-- Python `str.strip()`: drop leading and trailing whitespace. -/
def pystrip (s : PyStr) : PyStr :=
  ((s.dropWhile isPySpace).reverse.dropWhile isPySpace).reverse

/-- Worker for `pysplit`; `acc` is the reversed current token. -/
def pysplitAux (acc : PyStr) : PyStr → List PyStr
  | [] => if acc.isEmpty then [] else [acc.reverse]
  | c :: rest =>
    if isPySpace c then
      if acc.isEmpty then pysplitAux [] rest else acc.reverse :: pysplitAux [] rest
    else pysplitAux (c :: acc) rest

/-- Python `str.split()` with no argument: split on runs of whitespace,
dropping empty tokens. -/
def pysplit (s : PyStr) : List PyStr := pysplitAux [] s

/-- Python `sep.join(parts)` for `str.join`. -/
def pyjoin (sep : PyStr) : List PyStr → PyStr
  | [] => []
  | [t] => t
  | t :: u :: rest => t ++ sep ++ pyjoin sep (u :: rest)

/-- Characters `urllib.parse.quote` leaves unescaped with its default
`safe='/'`: ASCII alphanumerics, `_ . - ~` and `/`. -/
def isQuoteSafe (c : Nat) : Bool :=
  (65 ≤ c && c ≤ 90) || (97 ≤ c && c ≤ 122) || (48 ≤ c && c ≤ 57) ||
  c == 45 || c == 46 || c == 95 || c == 126 || c == 47

/-- UTF-8 encoding of one code point, as byte values. -/
def utf8Encode (c : Nat) : List Nat :=
  if c < 128 then [c]
  else if c < 2048 then [192 + c / 64, 128 + c % 64]
  else if c < 65536 then [224 + c / 4096, 128 + c / 64 % 64, 128 + c % 64]
  else [240 + c / 262144, 128 + c / 4096 % 64, 128 + c / 64 % 64, 128 + c % 64]

/-- Uppercase hexadecimal digit character for a nibble, as `quote` emits. -/
def hexDigitChar (n : Nat) : Nat := if n < 10 then 48 + n else 55 + n

/-- One byte as a `%XX` escape. -/
def percentEncodeByte (b : Nat) : List Nat :=
  [37, hexDigitChar (b / 16), hexDigitChar (b % 16)]

/-- How `quote` renders one character: safe characters pass through,
every other character is UTF-8 encoded and each byte escaped. -/
def quoteChar (c : Nat) : List Nat :=
  if isQuoteSafe c then [c]
  else ((utf8Encode c).map percentEncodeByte).flatten

/-- `urllib.parse.quote(s)` (default `safe='/'`). -/
def pyquote (s : PyStr) : PyStr := (s.map quoteChar).flatten

/-- `format_arxiv_query` from `src/main.py` lines 36-41:
whitespace-split the stripped query; empty → empty string; otherwise
join `all:word` tokens with `" AND "` and percent-encode. -/
def format_arxiv_query (query : PyStr) : PyStr :=
  let words := pysplit (pystrip query)
  if words.isEmpty then []
  else pyquote (pyjoin (strOf " AND ") (words.map fun w => strOf "all:" ++ w))



/-! ## Percent-decoding (the spec-side inverse used to state the
Query-Formatter claim; `urllib.parse.unquote` semantics on well-formed
escapes). -/

/-- Is `c` an ASCII hexadecimal digit? -/
def isHexDigit (c : Nat) : Bool :=
  (48 ≤ c && c ≤ 57) || (65 ≤ c && c ≤ 70) || (97 ≤ c && c ≤ 102)

/-- Value of a hexadecimal digit character. -/
def hexVal (c : Nat) : Nat :=
  if c ≤ 57 then c - 48 else if c ≤ 70 then c - 55 else c - 87

/-- Decode a percent-escaped character sequence to a byte sequence:
`%XX` becomes its byte, any other character contributes its UTF-8 bytes;
a stray `%` is kept literally. -/
def percentDecodeBytes : PyStr → List Nat
  | [] => []
  | 37 :: h :: l :: rest =>
    if isHexDigit h && isHexDigit l then
      (16 * hexVal h + hexVal l) :: percentDecodeBytes rest
    else 37 :: percentDecodeBytes (h :: l :: rest)
  | c :: rest => utf8Encode c ++ percentDecodeBytes rest

/-- Decode one UTF-8-encoded code point: given the lead byte and the
following bytes, return the code point and the bytes after it (on a
truncated tail the missing continuation bytes read as 0). -/
def utf8Step (b : Nat) (rest : List Nat) : Nat × List Nat :=
  if b < 128 then (b, rest)
  else if b < 224 then
    ((b - 192) * 64 + (rest.headD 0 - 128), rest.tail)
  else if b < 240 then
    ((b - 224) * 4096 + (rest.headD 0 - 128) * 64 + (rest.tail.headD 0 - 128),
      rest.tail.tail)
  else
    ((b - 240) * 262144 + (rest.headD 0 - 128) * 4096 +
      (rest.tail.headD 0 - 128) * 64 + (rest.tail.tail.headD 0 - 128),
      rest.tail.tail.tail)

/-- Fuelled worker decoding a whole UTF-8 byte sequence (the fuel, at
least the list length, makes the recursion structural). -/
def utf8DecodeGo : Nat → List Nat → PyStr
  | _, [] => []
  | 0, _ => []
  | fuel + 1, b :: rest =>
    (utf8Step b rest).1 :: utf8DecodeGo fuel (utf8Step b rest).2

/-- Decode a UTF-8 byte sequence back to code points. -/
def utf8Decode (l : List Nat) : PyStr := utf8DecodeGo l.length l

/-- Percent-decoding of a string (`urllib.parse.unquote`). -/
def pyunquote (s : PyStr) : PyStr := utf8Decode (percentDecodeBytes s)

/-! ## Splitting on a substring (Python `str.split(sep)`, the code's
`abs_url.split('/abs/')` and `re.split("v", ...)`, and the spec-side
split on `" AND "`). Implemented with a fuel argument (initialised to the
string length, always sufficient for a non-empty separator) so that it is
structurally recursive and evaluates inside the kernel. -/

/-- Fuelled worker for `splitOnStr`: scan left to right, cutting at each
leftmost non-overlapping occurrence of `sep`. -/
def splitGo (sep : PyStr) : Nat → PyStr → List PyStr
  | _, [] => [[]]
  | 0, s => [s]
  | fuel + 1, c :: rest =>
    if sep.isPrefixOf (c :: rest) && !sep.isEmpty then
      [] :: splitGo sep fuel (List.drop sep.length (c :: rest))
    else
      (c :: (splitGo sep fuel rest).headD []) :: (splitGo sep fuel rest).tail

/-- Python `s.split(sep)` for a non-empty separator string. -/
def splitOnStr (sep s : PyStr) : List PyStr := splitGo sep s.length s

/-- Does `s` contain `sep` as a contiguous subsequence? -/
def containsSeq (sep : PyStr) : PyStr → Bool
  | [] => sep.isEmpty
  | c :: rest => sep.isPrefixOf (c :: rest) || containsSeq sep rest



/-! ## The citation-key regular expression
`re.search(r'@\w+\s*\x7b\s*([^,]+),', text)` from `extract_citation_key`
(lines 43-48). The pattern is deterministic except for the interplay of
the greedy `\s*` with `([^,]+)` (whose class also matches spaces), which
the model resolves exactly as the backtracking engine does.  `\w` is
modelled over its ASCII portion (letters, digits, underscore). -/

/-- ASCII word character, for the pattern's `\w`. -/
def isWordChar (c : Nat) : Bool :=
  (65 ≤ c && c ≤ 90) || (97 ≤ c && c ≤ 122) || (48 ≤ c && c ≤ 57) || c == 95

/-- Try to match `@\w+\s*\x7b\s*([^,]+),` at the start of `s`, returning
the group (the captured key text) on success. -/
def matchKeyAt (s : PyStr) : Option PyStr :=
  match s with
  | 64 :: rest =>
    let w := rest.takeWhile isWordChar
    if w.isEmpty then none
    else
      match (rest.dropWhile isWordChar).dropWhile isPySpace with
      | 123 :: r3 =>
        let pre := r3.takeWhile fun c => c != 44
        if pre.length = r3.length then none          -- no comma after the brace
        else if pre.length = 0 then none             -- empty group
        else
          let i := min (r3.takeWhile isPySpace).length (pre.length - 1)
          some ((r3.drop i).take (pre.length - i))
      | _ => none
  | _ => none

/-- `re.search`: try the pattern at each position, leftmost match wins. -/
def reSearchKey : PyStr → Option PyStr
  | [] => none
  | c :: rest =>
    match matchKeyAt (c :: rest) with
    | some g => some g
    | none => reSearchKey rest

/-- `extract_citation_key` from `src/main.py` lines 43-48: the stripped
first group of the leftmost match, or `none` (Python `None`) if the
pattern does not occur. -/
def extract_citation_key (s : PyStr) : Option PyStr :=
  (reSearchKey s).map pystrip



/-! ## Feed data model (what `feedparser` hands to `search_arxiv`). -/

/-- One `<link>` of a feed entry: `link.get('type')`, `link.get('rel')`
(absent attributes give `None`) and `link.href`. -/
structure Link where
  type : Option PyStr
  rel : Option PyStr
  href : PyStr
deriving DecidableEq

/-- One feed entry: `entry.id`, `entry.links` (`none` when
`hasattr(entry, 'links')` is false) and `entry.summary`. -/
structure Entry where
  id : PyStr
  links : Option (List Link)
  summary : PyStr
deriving DecidableEq

/-- The structured response of the understanding service in
`async_retrieve_important`: the three `output_format` fields. -/
structure Verdict where
  relevant : Bool       -- "Text Relevant for query"
  important : PyStr     -- "Important Information"
  filtered : PyStr      -- "Filtered Detailed Important Information"
deriving DecidableEq

/-! ## Bibliography fetcher (`async_get_bibtex_entry`, lines 55-68). -/

/-- Identifier derivation of lines 57-62: split `entry.id` on `/abs/`;
fewer than two parts means no identifier; otherwise take the second part
and keep `re.split("v", ...)[0]`, the text before its first `v`. -/
def arxiv_id_of (abs_url : PyStr) : Option PyStr :=
  match splitOnStr (strOf "/abs/") abs_url with
  | _ :: seg :: _ => some ((splitOnStr [118] seg).headD [])
  | _ => none

/-- `async_get_bibtex_entry`: derive the identifier, fetch the
bibliography record through the `fetchBib` oracle (its `.error` is a
raised network/status exception), and convert any failure to a sentinel
string exactly as the `try`/`except` does. -/
def async_get_bibtex_entry (fetchBib : PyStr → Except PyStr PyStr)
    (entry : Entry) : PyStr :=
  match arxiv_id_of entry.id with
  | none => strOf "No valid arXiv id found in entry.id"
  | some aid =>
    match fetchBib (strOf "https://arxiv.org/bibtex/" ++ aid) with
    | .ok body => body
    | .error e => strOf "Error retrieving BibTeX: " ++ e

/-! ## Content extractor (lines 70-100). -/

/-- The page loop of `async_extract_pdf_text`: concatenate each page's
`extract_text()` result (skipping `None`/empty pages) with a newline,
falling back to the no-text sentinel. -/
def extract_text_pages (pages : List (Option PyStr)) : PyStr :=
  let text := pages.foldl
    (fun acc p =>
      match p with
      | some t => if t.isEmpty then acc else acc ++ t ++ [10]
      | none => acc) []
  if text.isEmpty then strOf "No text could be extracted from the PDF." else text

/-- `async_extract_pdf_text`: the `fetchPdf` oracle covers the GET,
status check and `PyPDF2` parse (its `.error` is any exception raised in
the `try` block), yielding the per-page `extract_text()` results. -/
def async_extract_pdf_text (fetchPdf : PyStr → Except PyStr (List (Option PyStr)))
    (pdf_url : PyStr) : PyStr :=
  match fetchPdf pdf_url with
  | .ok pages => extract_text_pages pages
  | .error e => strOf "Error retrieving PDF text: " ++ e

/-- `re.sub(r'\n+', '\n', text)`: collapse runs of newlines. -/
def collapse_newlines : PyStr → PyStr
  | [] => []
  | [c] => [c]
  | c :: d :: rest =>
    if c == 10 && d == 10 then collapse_newlines (d :: rest)
    else c :: collapse_newlines (d :: rest)

/-- `async_extract_html_text`: the `fetchHtml` oracle covers the GET,
status check and `BeautifulSoup(...).get_text(separator="\n")`; the code
then collapses newline runs and strips. -/
def async_extract_html_text (fetchHtml : PyStr → Except PyStr PyStr)
    (html_url : PyStr) : PyStr :=
  match fetchHtml html_url with
  | .ok text => pystrip (collapse_newlines text)
  | .error e => strOf "Error retrieving HTML text: " ++ e

/-! ## Relevance synthesizer (`async_retrieve_important`, lines 102-117). -/

/-- `async_retrieve_important`: call the understanding service
(`strict_json_async`, modelled by the `understand` oracle, which sees the
desired-output description and the text truncated to 200000 characters;
its `.error` is a raised service/schema failure) and post-process: the
relevance boolean decides between the detailed field and `'NA'`. -/
def async_retrieve_important (understand : PyStr → PyStr → Except PyStr Verdict)
    (user_output metadata_text : PyStr) : Except PyStr PyStr :=
  match understand user_output (metadata_text.take 200000) with
  | .error e => .error e
  | .ok res => .ok (if res.relevant then res.filtered else strOf "NA")

/-! ## Retrieval orchestrator (`search_arxiv`, lines 119-165).
The feed fetch/parse prerequisite is the function's caller-side boundary:
the model receives `feed.entries` directly. -/

/-- The body of the link loop of lines 139-143: a `application/pdf`
content-type overwrites `pdf_url`, otherwise an `alternate` relation
overwrites `html_url`. -/
def link_step (pu_hu : Option PyStr × Option PyStr) (link : Link) :
    Option PyStr × Option PyStr :=
  if link.type == some (strOf "application/pdf") then (some link.href, pu_hu.2)
  else if link.rel == some (strOf "alternate") then (pu_hu.1, some link.href)
  else pu_hu

/-- The link loop of lines 136-143, as a fold of `link_step` starting
from `pdf_url = html_url = None`. -/
def scan_links (links : List Link) : Option PyStr × Option PyStr :=
  links.foldl link_step (none, none)

/-- Python truthiness of the `pdf_url` / `html_url` variables
(`None` and the empty string are falsy). -/
def truthy : Option PyStr → Bool
  | none => false
  | some s => !s.isEmpty

/-- Which content source lines 146-152 choose for an entry. -/
inductive Source where
  | pdf (url : PyStr)
  | html (url : PyStr)
  | summary
deriving DecidableEq

/-- Source selection for one entry: the PDF link if `pdf_url` is truthy,
else the alternate link if `html_url` is truthy, else the summary. -/
def select_source (entry : Entry) : Source :=
  let pu_hu := match entry.links with
    | some ls => scan_links ls
    | none => (none, none)
  if truthy pu_hu.1 then .pdf (pu_hu.1.getD [])
  else if truthy pu_hu.2 then .html (pu_hu.2.getD [])
  else .summary

/-- The metadata task scheduled for one entry (lines 145-152): PDF
extraction, else HTML extraction, else `entry.summary.strip()` wrapped in
`asyncio.sleep(0, result=...)` (no network call). -/
def metadata_for (fetchPdf : PyStr → Except PyStr (List (Option PyStr)))
    (fetchHtml : PyStr → Except PyStr PyStr) (entry : Entry) : PyStr :=
  match select_source entry with
  | .pdf u => async_extract_pdf_text fetchPdf u
  | .html u => async_extract_html_text fetchHtml u
  | .summary => pystrip entry.summary

/-- `asyncio.gather` over fallible tasks with `return_exceptions=False`:
results in task order, or the failure of a failing task. -/
def gatherE : List (Except PyStr PyStr) → Except PyStr (List PyStr)
  | [] => .ok []
  | .error e :: _ => .error e
  | .ok a :: rest => (gatherE rest).map (a :: ·)

/-- A Python `dict` preserving insertion order, keyed by
`Option PyStr` (citation key, or `None` when extraction found none). -/
abbrev BibDict := List (Option PyStr × PyStr)

/-- `d[k] = v`: overwrite in place if the key exists, else append. -/
def dict_insert : BibDict → Option PyStr → PyStr → BibDict
  | [], k, v => [(k, v)]
  | (k1, v1) :: rest, k, v =>
    if k1 == k then (k1, v) :: rest else (k1, v1) :: dict_insert rest k v

/-- The dict comprehension of line 159, keying each record by its
extracted citation key (last write wins on duplicates). -/
def dict_of_entries (records : List PyStr) : BibDict :=
  records.foldl (fun d r => dict_insert d (extract_citation_key r) r) []

/-- `d.get(k)`: the value stored at `k`, if any. -/
def dict_get : BibDict → Option PyStr → Option PyStr
  | [], _ => none
  | (k1, v1) :: rest, k => if k1 == k then some v1 else dict_get rest k

/-- `search_arxiv` (lines 119-165) after the feed fetch: schedule a
bibliography task and a metadata task per entry, gather both batches
(all tasks total, every failure already a sentinel), build the
bibliography dict, then gather one relevance-synthesis task per metadata
text; a synthesis failure propagates out of the final gather. -/
def search_arxiv (fetchBib : PyStr → Except PyStr PyStr)
    (fetchPdf : PyStr → Except PyStr (List (Option PyStr)))
    (fetchHtml : PyStr → Except PyStr PyStr)
    (understand : PyStr → PyStr → Except PyStr Verdict)
    (user_output : PyStr) (entries : List Entry) :
    Except PyStr (BibDict × List PyStr) :=
  let bibtex_entries := entries.map (async_get_bibtex_entry fetchBib)
  let metadata_texts := entries.map (metadata_for fetchPdf fetchHtml)
  let bibtex_dict := dict_of_entries bibtex_entries
  match gatherE (metadata_texts.map (async_retrieve_important understand user_output)) with
  | .error e => .error e
  | .ok important_information => .ok (bibtex_dict, important_information)

/-! ## Claim-side helper notions and concrete inputs. -/

/-- A link whose declared content-type is `application/pdf`. -/
def isPdfLink (l : Link) : Bool := l.type == some (strOf "application/pdf")

/-- A link the `elif` branch can select: relation `alternate` and not
already claimed by the `application/pdf` branch. -/
def isAltLink (l : Link) : Bool :=
  !isPdfLink l && (l.rel == some (strOf "alternate"))

/-- An always-failing network oracle (a simulated network error). -/
def failFetchStr : PyStr → Except PyStr PyStr := fun _ => .error (strOf "boom")

/-- An always-failing PDF fetch/parse oracle. -/
def failFetchPdf : PyStr → Except PyStr (List (Option PyStr)) :=
  fun _ => .error (strOf "boom")

/-- A bibliography oracle that returns a fixed well-formed record. -/
def okFetchBib : PyStr → Except PyStr PyStr :=
  fun _ => .ok (strOf "@misc\x7bkey1,")

/-- A PDF oracle returning one page of text. -/
def okFetchPdf : PyStr → Except PyStr (List (Option PyStr)) :=
  fun _ => .ok [some (strOf "page")]

/-- An HTML oracle returning fixed page text. -/
def okFetchHtml : PyStr → Except PyStr PyStr := fun _ => .ok (strOf "text")

/-- An understanding-service oracle that fails (malformed structured
response) exactly on the text `"a"` and succeeds on everything else. -/
def failOnA : PyStr → PyStr → Except PyStr Verdict :=
  fun _ t =>
    if t == strOf "a" then .error (strOf "schema failure")
    else .ok ⟨true, [], strOf "fine"⟩

/-- An entry with no links whose summary is `"a"`. -/
def entryA : Entry := ⟨strOf "http://arxiv.org/abs/1111.1111", none, strOf "a"⟩

/-- An entry with no links whose summary is `"b"`. -/
def entryB : Entry := ⟨strOf "http://arxiv.org/abs/2222.2222", none, strOf "b"⟩

/-- An entry whose only link carries the `application/pdf` content-type
(and `alternate` relation) but an empty `href`. -/
def entryEmptyHref : Entry :=
  ⟨[], some [⟨some (strOf "application/pdf"), some (strOf "alternate"), []⟩],
   strOf " summary text "⟩

/-- An entry with two PDF-typed links; the second also has relation
`alternate`. -/
def entryTwoPdf : Entry :=
  ⟨[], some [⟨some (strOf "application/pdf"), none, strOf "p1"⟩,
             ⟨some (strOf "application/pdf"), some (strOf "alternate"), strOf "p2"⟩],
   strOf "s"⟩

/-- An entry with a URL that has no `/abs/` segment. -/
def entryNoAbs : Entry := ⟨strOf "https://example.org/paper/77", none, strOf "s"⟩

/-! ## Lemmas: the bibliography dictionary. -/

theorem dict_get_insert (d : BibDict) (k k2 : Option PyStr) (v : PyStr) :
    dict_get (dict_insert d k v) k2 =
      if k == k2 then some v else dict_get d k2 := by
  induction d with
  | nil => simp [dict_insert, dict_get]
  | cons p rest ih =>
    obtain ⟨k1, v1⟩ := p
    by_cases h1 : k1 = k
    · subst h1
      by_cases h2 : k1 = k2
      · subst h2; simp [dict_insert, dict_get]
      · simp [dict_insert, dict_get, h2]
    · by_cases h2 : k1 = k2
      · subst h2
        have h3 : ¬ k = k1 := fun hh => h1 hh.symm
        simp [dict_insert, dict_get, h1, h3]
      · simp [dict_insert, dict_get, h1, h2, ih]

theorem dict_get_fold (records : List PyStr) (d : BibDict) (k : Option PyStr) :
    dict_get (records.foldl (fun d2 r => dict_insert d2 (extract_citation_key r) r) d) k
      = ((records.filter fun r => extract_citation_key r == k).getLast?).elim
          (dict_get d k) some := by
  induction records using List.reverseRecOn generalizing d with
  | nil => simp
  | append_singleton rs r ih =>
    rw [List.foldl_append, List.foldl_cons, List.foldl_nil, dict_get_insert,
      List.filter_append]
    by_cases h : extract_citation_key r = k
    · simp [h, List.getLast?_concat]
    · simp [h, ih]

/-! ## Lemmas: the link-selection loop. -/

theorem foldl_link_step (ls : List Link) (acc : Option PyStr × Option PyStr) :
    ls.foldl link_step acc =
      (((ls.filter isPdfLink).getLast?).elim acc.1 fun l => some l.href,
       ((ls.filter isAltLink).getLast?).elim acc.2 fun l => some l.href) := by
  induction ls using List.reverseRecOn generalizing acc with
  | nil => simp
  | append_singleton ls l ih =>
    rw [List.foldl_append, List.foldl_cons, List.foldl_nil, ih,
      List.filter_append, List.filter_append]
    by_cases hp : l.type = some (strOf "application/pdf")
    · have hpl : isPdfLink l = true := by simp [isPdfLink, hp]
      have hal : isAltLink l = false := by simp [isAltLink, hpl]
      simp [link_step, hp, hpl, hal, List.getLast?_concat]
    · have hpl : isPdfLink l = false := by simp [isPdfLink, hp]
      by_cases ha : l.rel = some (strOf "alternate")
      · have hal : isAltLink l = true := by simp [isAltLink, hpl, ha]
        simp [link_step, hp, ha, hpl, hal, List.getLast?_concat]
      · have hal : isAltLink l = false := by simp [isAltLink, hpl, ha]
        simp [link_step, hp, ha, hpl, hal]

theorem scan_links_spec (ls : List Link) :
    scan_links ls =
      (((ls.filter isPdfLink).getLast?).map fun l => l.href,
       ((ls.filter isAltLink).getLast?).map fun l => l.href) := by
  rw [scan_links, foldl_link_step]
  cases (ls.filter isPdfLink).getLast? <;> cases (ls.filter isAltLink).getLast? <;> simp

/-! ## Claim C9: duplicate citation keys are last-write-wins. -/

/-- Claim C9: when two or more bibliographic records in one search yield
the same citation key, the bibliography map holds exactly the record
inserted last: for every key, the dict built by `search_arxiv`'s
comprehension returns the last record (in insertion order) whose
extracted citation key equals it. -/
theorem claim_C9 (records : List PyStr) (k : Option PyStr) :
    dict_get (dict_of_entries records) k =
      (records.filter fun r => extract_citation_key r == k).getLast? := by
  rw [dict_of_entries, dict_get_fold]
  cases (records.filter fun r => extract_citation_key r == k).getLast? <;>
    simp [dict_get]

/-! ## Claim C10: last PDF link wins; PDF-typed links never feed the
HTML fallback. -/

/-- Claim C10: if the binary-extraction path is taken, its URL is the
`href` of the last `application/pdf`-typed link in list order; and the
`html_url` variable is only ever the `href` of the last link that has
relation `alternate` and is not `application/pdf`-typed (so a PDF-typed
link is never considered as the markup-path fallback, even if its
relation is also `alternate`). -/
theorem claim_C10 :
    (∀ (entry : Entry) (ls : List Link) (u : PyStr) (lp : Link),
        entry.links = some ls → (ls.filter isPdfLink).getLast? = some lp →
        select_source entry = .pdf u → u = lp.href) ∧
    (∀ ls : List Link,
        (scan_links ls).2 = ((ls.filter isAltLink).getLast?).map fun l => l.href) := by
  constructor
  · intro entry ls u lp hl hp hs
    rw [select_source, hl] at hs
    simp only [scan_links_spec, hp, Option.map_some'] at hs
    by_cases ht : truthy (some lp.href) = true
    · simp [ht] at hs
      exact hs.symm
    · rw [if_neg ht] at hs
      split at hs <;> simp at hs
  · intro ls
    rw [scan_links_spec]

/-- Witness for C10 on a concrete entry with two PDF-typed links, the
second of which also has relation `alternate`. -/
theorem claim_C10_witness :
    strOf "p2" =
      (Link.mk (some (strOf "application/pdf")) (some (strOf "alternate"))
        (strOf "p2")).href ∧
    (scan_links ((entryTwoPdf.links).getD [])).2 =
      ((((entryTwoPdf.links).getD []).filter isAltLink).getLast?).map
        (fun l => l.href) :=
  ⟨claim_C10.1 entryTwoPdf ((entryTwoPdf.links).getD []) (strOf "p2")
      (Link.mk (some (strOf "application/pdf")) (some (strOf "alternate"))
        (strOf "p2"))
      (by decide) (by decide) (by decide),
   claim_C10.2 ((entryTwoPdf.links).getD [])⟩

/-- From `getLast? = some a`, membership in the list. -/
theorem getLast?_mem_of_eq_some {A : Type} {l : List A} {a : A}
    (h : l.getLast? = some a) : a ∈ l := by
  obtain ⟨hne, heq⟩ := List.mem_getLast?_eq_getLast (Option.mem_def.mpr h)
  rw [heq]
  exact List.getLast_mem hne

/-! ## Claim C8: content-source selection priority. -/

/-- Counterexample to claim C8 as stated: `entryEmptyHref` has a link
with declared content-type `application/pdf`, but because its `href` is
the empty string the `if pdf_url:` truthiness test fails and the code
falls through to the summary, not the binary extraction path. -/
theorem claim_C8_counterexample :
    select_source entryEmptyHref = Source.summary ∧
    Source.summary ≠ Source.pdf [] := by
  constructor
  · rfl
  · decide

/-- Claim C8 amended: for an entry whose links all carry non-empty
`href`s, selection follows the claimed priority: the last
`application/pdf`-typed link, else the last non-PDF-typed link with
relation `alternate`, else the entry's trimmed summary (with no network
call: the summary case is independent of both fetch oracles, and holds
whatever the `href`s when no link matches either filter, and when the
entry has no link list at all). -/
theorem claim_C8_amended :
    (∀ (entry : Entry) (ls : List Link) (lp : Link),
        entry.links = some ls → (∀ l ∈ ls, l.href ≠ []) →
        (ls.filter isPdfLink).getLast? = some lp →
        select_source entry = .pdf lp.href) ∧
    (∀ (entry : Entry) (ls : List Link) (la : Link),
        entry.links = some ls → (∀ l ∈ ls, l.href ≠ []) →
        ls.filter isPdfLink = [] → (ls.filter isAltLink).getLast? = some la →
        select_source entry = .html la.href) ∧
    (∀ (entry : Entry) (ls : List Link)
        (fP : PyStr → Except PyStr (List (Option PyStr)))
        (fH : PyStr → Except PyStr PyStr),
        entry.links = some ls →
        ls.filter isPdfLink = [] → ls.filter isAltLink = [] →
        metadata_for fP fH entry = pystrip entry.summary) ∧
    (∀ (entry : Entry)
        (fP : PyStr → Except PyStr (List (Option PyStr)))
        (fH : PyStr → Except PyStr PyStr),
        entry.links = none →
        metadata_for fP fH entry = pystrip entry.summary) := by
  refine ⟨?_, ?_, ?_, ?_⟩
  · intro entry ls lp hl hhref hp
    have hmem : lp ∈ ls := List.mem_of_mem_filter (getLast?_mem_of_eq_some hp)
    have ht : truthy (some lp.href) = true := by
      simp [truthy, List.isEmpty_iff, hhref lp hmem]
    rw [select_source, hl]
    simp only [scan_links_spec, hp, Option.map_some']
    simp [ht]
  · intro entry ls la hl hhref hp ha
    have hmem : la ∈ ls := List.mem_of_mem_filter (getLast?_mem_of_eq_some ha)
    have ht : truthy (some la.href) = true := by
      simp [truthy, List.isEmpty_iff, hhref la hmem]
    rw [select_source, hl]
    simp only [scan_links_spec, hp, ha, Option.map_some']
    simp [truthy, List.isEmpty_iff, hhref la hmem]
  · intro entry ls fP fH hl hp ha
    rw [metadata_for, select_source, hl]
    simp only [scan_links_spec, hp, ha]
    simp [truthy]
  · intro entry fP fH hl
    rw [metadata_for, select_source, hl]
    simp [truthy]

/-- Witness for the amended C8: the two-PDF-link entry selects the
binary path at the last link's `href`, and the linkless entry `entryA`
yields its stripped summary independently of the oracles. -/
theorem claim_C8_witness :
    select_source entryTwoPdf =
      Source.pdf (Link.mk (some (strOf "application/pdf"))
        (some (strOf "alternate")) (strOf "p2")).href ∧
    metadata_for okFetchPdf okFetchHtml entryA = pystrip entryA.summary :=
  ⟨claim_C8_amended.1 entryTwoPdf ((entryTwoPdf.links).getD [])
      (Link.mk (some (strOf "application/pdf")) (some (strOf "alternate"))
        (strOf "p2"))
      (by decide) (by decide) (by decide),
   claim_C8_amended.2.2.2 entryA okFetchPdf okFetchHtml (by decide)⟩

/-! ## Claim C2: the relevance boolean is authoritative. -/

/-- Claim C2: for every structured response of the understanding
service, a false relevance boolean makes `async_retrieve_important`
return exactly the sentinel `"NA"`, whatever the detailed-summary field
holds; a true boolean returns the detailed-summary field's value. -/
theorem claim_C2 (res : Verdict) (uo t : PyStr) :
    (res.relevant = false →
      async_retrieve_important (fun _ _ => .ok res) uo t = .ok (strOf "NA")) ∧
    (res.relevant = true →
      async_retrieve_important (fun _ _ => .ok res) uo t = .ok res.filtered) := by
  constructor <;> intro h <;> simp [async_retrieve_important, h]

/-- Witness for C2 at a response whose boolean is false but whose
detailed-summary field is non-empty text. -/
theorem claim_C2_witness :
    async_retrieve_important
      (fun _ _ => .ok (Verdict.mk false [] (strOf "detailed text")))
      (strOf "q") (strOf "t") = .ok (strOf "NA") :=
  (claim_C2 (Verdict.mk false [] (strOf "detailed text"))
    (strOf "q") (strOf "t")).1 rfl

/-! ## Claim C6: fetch failures become descriptive sentinel strings. -/

/-- Claim C6: a failure inside the bibliography fetch yields the string
`"Error retrieving BibTeX: <message>"`, and failures inside the PDF/HTML
extractions yield `"Error retrieving PDF text: <message>"` and
`"Error retrieving HTML text: <message>"`; none of the three operations
propagates the failure (they are total functions of the oracles). -/
theorem claim_C6 (fB : PyStr → Except PyStr PyStr)
    (fP : PyStr → Except PyStr (List (Option PyStr)))
    (fH : PyStr → Except PyStr PyStr) (entry : Entry) (url e aid : PyStr) :
    (arxiv_id_of entry.id = some aid →
      fB (strOf "https://arxiv.org/bibtex/" ++ aid) = .error e →
      async_get_bibtex_entry fB entry = strOf "Error retrieving BibTeX: " ++ e) ∧
    (fP url = .error e →
      async_extract_pdf_text fP url = strOf "Error retrieving PDF text: " ++ e) ∧
    (fH url = .error e →
      async_extract_html_text fH url = strOf "Error retrieving HTML text: " ++ e) := by
  refine ⟨fun h1 h2 => ?_, fun h => ?_, fun h => ?_⟩
  · simp [async_get_bibtex_entry, h1, h2]
  · simp [async_extract_pdf_text, h]
  · simp [async_extract_html_text, h]

/-- Witness for C6 with always-failing oracles raising `"boom"`. -/
theorem claim_C6_witness :
    async_get_bibtex_entry failFetchStr entryA =
      strOf "Error retrieving BibTeX: " ++ strOf "boom" ∧
    async_extract_pdf_text failFetchPdf (strOf "u") =
      strOf "Error retrieving PDF text: " ++ strOf "boom" ∧
    async_extract_html_text failFetchStr (strOf "u") =
      strOf "Error retrieving HTML text: " ++ strOf "boom" :=
  ⟨(claim_C6 failFetchStr failFetchPdf failFetchStr entryA (strOf "u")
      (strOf "boom") (strOf "1111.1111")).1 (by decide) rfl,
   (claim_C6 failFetchStr failFetchPdf failFetchStr entryA (strOf "u")
      (strOf "boom") (strOf "1111.1111")).2.1 rfl,
   (claim_C6 failFetchStr failFetchPdf failFetchStr entryA (strOf "u")
      (strOf "boom") (strOf "1111.1111")).2.2 rfl⟩

/-! ## Lemmas: gather. -/

theorem gatherE_map_ok (l : List PyStr) (f : PyStr → PyStr) :
    gatherE (l.map fun x => .ok (f x)) = .ok (l.map f) := by
  induction l with
  | nil => rfl
  | cons x rest ih => simp [gatherE, ih, Except.map]

theorem gatherE_error_of_mem (l : List (Except PyStr PyStr)) (i : Nat)
    (err : PyStr) (h : l[i]? = some (.error err)) :
    ∃ e2, gatherE l = .error e2 := by
  induction l generalizing i with
  | nil => simp at h
  | cons x rest ih =>
    cases x with
    | error e => exact ⟨e, rfl⟩
    | ok a =>
      cases i with
      | zero => simp at h
      | succ j =>
        rw [List.getElem?_cons_succ] at h
        obtain ⟨e2, h2⟩ := ih j h
        exact ⟨e2, by simp [gatherE, h2, Except.map]⟩

/-! ## Claim C1: the relevance-result list is positionally aligned and
failure-resilient. -/

/-- Claim C1: for every feed of entries and all fetch oracles (including
failing ones, whose failures surface as sentinel strings inside the
metadata texts rather than exceptions), a search with a total
understanding service returns a relevance-result list of exactly the
entry count, whose element `i` is the relevance result computed from
entry `i`'s extracted text, in feed order. -/
theorem claim_C1 (fB : PyStr → Except PyStr PyStr)
    (fP : PyStr → Except PyStr (List (Option PyStr)))
    (fH : PyStr → Except PyStr PyStr) (F : PyStr → PyStr → Verdict)
    (uo : PyStr) (entries : List Entry) :
    ∃ (bd : BibDict) (infos : List PyStr),
      search_arxiv fB fP fH (fun a b => .ok (F a b)) uo entries =
        .ok (bd, infos) ∧
      infos.length = entries.length ∧
      ∀ i : Nat, infos[i]? = (entries[i]?).map fun ent =>
        if (F uo ((metadata_for fP fH ent).take 200000)).relevant
        then (F uo ((metadata_for fP fH ent).take 200000)).filtered
        else strOf "NA" := by
  refine ⟨dict_of_entries (entries.map (async_get_bibtex_entry fB)),
    entries.map fun ent =>
      if (F uo ((metadata_for fP fH ent).take 200000)).relevant
      then (F uo ((metadata_for fP fH ent).take 200000)).filtered
      else strOf "NA", ?_, by simp, fun i => by simp⟩
  rw [search_arxiv]
  have h1 :
      (entries.map (metadata_for fP fH)).map
          (async_retrieve_important (fun a b => .ok (F a b)) uo) =
        (entries.map (metadata_for fP fH)).map fun m =>
          .ok (if (F uo (m.take 200000)).relevant
               then (F uo (m.take 200000)).filtered else strOf "NA") := by
    simp [async_retrieve_important]
  rw [h1, gatherE_map_ok, List.map_map]
  rfl

/-! ## Claim C7: a synthesis failure for one paper. -/

/-- Counterexample to claim C7 as stated: with two entries whose
summaries are `"a"` and `"b"` and an understanding service that fails
only on `"a"`, the whole `search_arxiv` call raises (the gather
propagates the failure), so the other paper's relevance result is not
produced — even though that other paper's synthesis on its own would
have succeeded. -/
theorem claim_C7_counterexample :
    search_arxiv okFetchBib okFetchPdf okFetchHtml failOnA (strOf "q")
        [entryA, entryB] = .error (strOf "schema failure") ∧
    async_retrieve_important failOnA (strOf "q")
        (metadata_for okFetchPdf okFetchHtml entryB) = .ok (strOf "fine") :=
  ⟨rfl, rfl⟩

/-- Claim C7 amended: a failure of the understanding service during
relevance synthesis for any one paper propagates out of the batch gather
and aborts the whole search: `search_arxiv` fails rather than returning
the other papers' relevance results. -/
theorem claim_C7_amended (fB : PyStr → Except PyStr PyStr)
    (fP : PyStr → Except PyStr (List (Option PyStr)))
    (fH : PyStr → Except PyStr PyStr)
    (und : PyStr → PyStr → Except PyStr Verdict) (uo : PyStr)
    (entries : List Entry) (i : Nat) (ent : Entry) (err : PyStr)
    (hent : entries[i]? = some ent)
    (hfail : und uo ((metadata_for fP fH ent).take 200000) = .error err) :
    ∃ e2, search_arxiv fB fP fH und uo entries = .error e2 := by
  have hsel :
      ((entries.map (metadata_for fP fH)).map
        (async_retrieve_important und uo))[i]? = some (.error err) := by
    rw [List.getElem?_map, List.getElem?_map, hent]
    simp [async_retrieve_important, hfail]
  obtain ⟨e2, h2⟩ := gatherE_error_of_mem _ i err hsel
  refine ⟨e2, ?_⟩
  rw [search_arxiv, h2]

/-- Witness for the amended C7 on the two-entry counterexample data. -/
theorem claim_C7_witness :
    ∃ e2, search_arxiv okFetchBib okFetchPdf okFetchHtml failOnA (strOf "q")
      [entryA, entryB] = .error e2 :=
  claim_C7_amended okFetchBib okFetchPdf okFetchHtml failOnA (strOf "q")
    [entryA, entryB] 0 entryA (strOf "schema failure") rfl rfl

/-! ## Lemmas: the substring splitter. -/

theorem splitGo_of_not_contains (sep : PyStr) (fuel : Nat) :
    ∀ s : PyStr, containsSeq sep s = false → splitGo sep fuel s = [s] := by
  induction fuel with
  | zero => intro s _; cases s <;> rfl
  | succ fuel ih =>
    intro s hc
    cases s with
    | nil => rfl
    | cons c rest =>
      rw [containsSeq] at hc
      simp only [Bool.or_eq_false_iff] at hc
      rw [splitGo, if_neg (by simp [hc.1]), ih rest hc.2]
      rfl

theorem splitGo_single_head (fuel : Nat) :
    ∀ s : PyStr, s.length ≤ fuel →
      (splitGo [118] fuel s).headD [] = s.takeWhile fun c => c != 118 := by
  induction fuel with
  | zero =>
    intro s hs
    rw [Nat.le_zero, List.length_eq_zero] at hs
    subst hs
    rfl
  | succ fuel ih =>
    intro s hs
    cases s with
    | nil => rfl
    | cons c rest =>
      rw [splitGo]
      by_cases hc : c = 118
      · subst hc
        rw [if_pos (by simp [List.isPrefixOf])]
        simp [List.takeWhile_cons]
      · rw [if_neg (by simp [List.isPrefixOf]; exact fun h => hc h.symm)]
        rw [List.takeWhile_cons, if_pos (by simp [hc])]
        simp only [List.headD_cons]
        rw [ih rest (by simpa using Nat.le_of_succ_le_succ hs)]

/-! ## Claim C5: identifier derivation in the bibliography fetcher. -/

/-- Counterexample to claim C5 as stated: for a URL whose identifier
segment is `2301.0123va`, there is no trailing `v`-followed-by-digits
marker (the `v` is followed by a letter), so the claimed stripping rule
would leave the segment unchanged; the code instead cuts at the first
`v` unconditionally and derives `2301.0123`. -/
theorem claim_C5_counterexample :
    arxiv_id_of (strOf "http://arxiv.org/abs/2301.0123va") =
      some (strOf "2301.0123") ∧
    strOf "2301.0123" ≠ strOf "2301.0123va" := ⟨rfl, by decide⟩

/-- Claim C5 amended: `.../abs/2301.01234v2` yields `2301.01234`;
`.../abs/2301.01234` yields `2301.01234`; a URL with no `/abs/` segment
yields the textual no-identifier sentinel rather than an exception; and
version stripping truncates the identifier segment at its first `v`
(whatever follows), rather than removing only a trailing
`v`-followed-by-digits marker. -/
theorem claim_C5_amended :
    arxiv_id_of (strOf "http://arxiv.org/abs/2301.01234v2") =
      some (strOf "2301.01234") ∧
    arxiv_id_of (strOf "http://arxiv.org/abs/2301.01234") =
      some (strOf "2301.01234") ∧
    (∀ (entry : Entry) (fB : PyStr → Except PyStr PyStr),
        containsSeq (strOf "/abs/") entry.id = false →
        async_get_bibtex_entry fB entry =
          strOf "No valid arXiv id found in entry.id") ∧
    (∀ seg : PyStr,
        (splitOnStr [118] seg).headD [] = seg.takeWhile fun c => c != 118) := by
  refine ⟨rfl, rfl, ?_, ?_⟩
  · intro entry fB hc
    rw [async_get_bibtex_entry, arxiv_id_of, splitOnStr,
      splitGo_of_not_contains _ _ _ hc]
  · intro seg
    exact splitGo_single_head seg.length seg le_rfl

/-- Witness for the amended C5: the no-`/abs/` sentinel on a concrete
URL and the first-`v` truncation on a concrete segment. -/
theorem claim_C5_witness :
    async_get_bibtex_entry failFetchStr entryNoAbs =
      strOf "No valid arXiv id found in entry.id" ∧
    (splitOnStr [118] (strOf "2301.01234v2")).headD [] =
      (strOf "2301.01234v2").takeWhile (fun c => c != 118) :=
  ⟨claim_C5_amended.2.2.1 entryNoAbs failFetchStr (by decide),
   claim_C5_amended.2.2.2 (strOf "2301.01234v2")⟩

/-! ## Lemmas: takeWhile / dropWhile over appends. -/

theorem takeWhile_append_all (p : Nat → Bool) (a b : List Nat)
    (h : ∀ c ∈ a, p c = true) :
    (a ++ b).takeWhile p = a ++ b.takeWhile p := by
  induction a with
  | nil => simp
  | cons c a2 ih =>
    rw [List.cons_append, List.takeWhile_cons, if_pos (h c (by simp)),
      List.cons_append, ih fun d hd => h d (by simp [hd])]

theorem dropWhile_append_all (p : Nat → Bool) (a b : List Nat)
    (h : ∀ c ∈ a, p c = true) :
    (a ++ b).dropWhile p = b.dropWhile p := by
  induction a with
  | nil => simp
  | cons c a2 ih =>
    rw [List.cons_append, List.dropWhile_cons, if_pos (h c (by simp)),
      ih fun d hd => h d (by simp [hd])]

theorem takeWhile_append_stop (p : Nat → Bool) (c0 : Nat) (b : List Nat)
    (hc : p c0 = false) :
    ∀ a : List Nat, (a ++ c0 :: b).takeWhile p = a.takeWhile p := by
  intro a
  induction a with
  | nil => simp [List.takeWhile_cons, hc]
  | cons c a2 ih =>
    by_cases hp : p c = true
    · rw [List.cons_append, List.takeWhile_cons, if_pos hp, ih,
        List.takeWhile_cons, if_pos hp]
    · rw [List.cons_append, List.takeWhile_cons,
        if_neg (by simpa using hp), List.takeWhile_cons, if_neg (by simpa using hp)]

theorem dropWhile_drop_of_le (p : Nat → Bool) :
    ∀ (l : List Nat) (m : Nat), m ≤ (l.takeWhile p).length →
      (l.drop m).dropWhile p = l.dropWhile p := by
  intro l
  induction l with
  | nil => intro m _; simp
  | cons c l2 ih =>
    intro m h
    cases m with
    | zero => simp
    | succ m2 =>
      by_cases hp : p c = true
      · rw [List.takeWhile_cons, if_pos hp, List.length_cons,
          Nat.succ_le_succ_iff] at h
        rw [List.drop_succ_cons, ih m2 h, List.dropWhile_cons, if_pos hp]
      · rw [List.takeWhile_cons, if_neg (by simpa using hp)] at h
        simp at h

theorem drop_append_plus : ∀ (a b : List Nat) (n : Nat),
    (a ++ b).drop (a.length + n) = b.drop n := by
  intro a
  induction a with
  | nil => intro b n; simp
  | cons c a2 ih =>
    intro b n
    simp only [List.cons_append, List.length_cons]
    rw [show a2.length + 1 + n = (a2.length + n) + 1 by omega,
      List.drop_succ_cons, ih]

theorem drop_append_of_le (b : List Nat) :
    ∀ (a : List Nat) (n : Nat), n ≤ a.length →
      (a ++ b).drop n = a.drop n ++ b := by
  intro a
  induction a with
  | nil =>
    intro n h
    have h0 : n = 0 := by simpa using h
    subst h0
    simp
  | cons c a2 ih =>
    intro n h
    cases n with
    | zero => simp
    | succ n2 =>
      rw [List.cons_append, List.drop_succ_cons, List.drop_succ_cons,
        ih n2 (by simpa using h)]

/-! ## Lemmas: character-class facts. -/

theorem space_not_word {c : Nat} (h : isPySpace c = true) :
    isWordChar c = false := by
  simp only [isPySpace, Bool.or_eq_true, Bool.and_eq_true, decide_eq_true_eq,
    beq_iff_eq] at h
  simp only [isWordChar, Bool.or_eq_false_iff, Bool.and_eq_false_iff,
    decide_eq_false_iff_not, beq_eq_false_iff_ne, ne_eq]
  omega

theorem space_ne_comma {c : Nat} (h : isPySpace c = true) : (c != 44) = true := by
  simp only [isPySpace, Bool.or_eq_true, Bool.and_eq_true, decide_eq_true_eq,
    beq_iff_eq] at h
  simp only [bne_iff_ne, ne_eq]
  omega

/-! ## Lemmas: evaluating the citation-key pattern on a well-formed
record header. -/

theorem matchKeyAt_wellformed (tw sp1 sp2 key rest : PyStr)
    (htw : tw ≠ []) (hw : ∀ c ∈ tw, isWordChar c = true)
    (hs1 : ∀ c ∈ sp1, isPySpace c = true) (hs2 : ∀ c ∈ sp2, isPySpace c = true)
    (hk : key ≠ []) (hnc : ∀ c ∈ key, c ≠ 44) :
    matchKeyAt (64 :: (tw ++ (sp1 ++ (123 :: (sp2 ++ (key ++ (44 :: rest))))))) =
      some (key.drop
        (min ((key.takeWhile isPySpace).length) (key.length - 1))) := by
  have hd_le : (key.takeWhile isPySpace).length ≤ key.length :=
    (List.takeWhile_sublist isPySpace).length_le
  have hk1 : 1 ≤ key.length := List.length_pos.mpr hk
  have h1 : (tw ++ (sp1 ++ (123 :: (sp2 ++ (key ++ (44 :: rest)))))).takeWhile
      isWordChar = tw := by
    rw [takeWhile_append_all _ _ _ hw]
    have h0 : (sp1 ++ (123 :: (sp2 ++ (key ++ (44 :: rest))))).takeWhile
        isWordChar = [] := by
      cases sp1 with
      | nil => simp [List.takeWhile_cons, isWordChar]
      | cons a sp1b =>
        simp [List.takeWhile_cons, space_not_word (hs1 a (by simp))]
    rw [h0, List.append_nil]
  have h2 : (tw ++ (sp1 ++ (123 :: (sp2 ++ (key ++ (44 :: rest)))))).dropWhile
      isWordChar = sp1 ++ (123 :: (sp2 ++ (key ++ (44 :: rest)))) := by
    rw [dropWhile_append_all _ _ _ hw]
    cases sp1 with
    | nil => simp [List.dropWhile_cons, isWordChar]
    | cons a sp1b =>
      simp [List.dropWhile_cons, space_not_word (hs1 a (by simp))]
  have h3 : (sp1 ++ (123 :: (sp2 ++ (key ++ (44 :: rest))))).dropWhile
      isPySpace = 123 :: (sp2 ++ (key ++ (44 :: rest))) := by
    rw [dropWhile_append_all _ _ _ hs1]
    simp [List.dropWhile_cons, isPySpace]
  have hpre : (sp2 ++ (key ++ (44 :: rest))).takeWhile (fun c => c != 44) =
      sp2 ++ key := by
    rw [takeWhile_append_all _ _ _ fun c hc => space_ne_comma (hs2 c hc),
      takeWhile_append_all _ _ _ fun c hc => by simpa using hnc c hc]
    simp [List.takeWhile_cons]
  have hmax : (sp2 ++ (key ++ (44 :: rest))).takeWhile isPySpace =
      sp2 ++ key.takeWhile isPySpace := by
    rw [takeWhile_append_all _ _ _ hs2,
      takeWhile_append_stop isPySpace 44 rest (by decide) key]
  rw [matchKeyAt]
  rw [h1]
  rw [if_neg (by simpa [List.isEmpty_iff] using htw)]
  rw [h2, h3]
  simp only []
  rw [hpre, hmax]
  have hlen1 : ¬ ((sp2 ++ key).length =
      (sp2 ++ (key ++ (44 :: rest))).length) := by
    simp
  rw [if_neg hlen1]
  have hlen0 : ¬ ((sp2 ++ key).length = 0) := by
    simp only [List.length_append]
    omega
  rw [if_neg hlen0]
  have hmin : min ((sp2 ++ key.takeWhile isPySpace).length)
      ((sp2 ++ key).length - 1) =
      sp2.length + min ((key.takeWhile isPySpace).length) (key.length - 1) := by
    simp only [List.length_append]
    omega
  rw [hmin]
  set m := min ((key.takeWhile isPySpace).length) (key.length - 1) with hm
  have hm_le : m ≤ key.length - 1 := Nat.min_le_right _ _
  have hdrop : (sp2 ++ (key ++ (44 :: rest))).drop (sp2.length + m) =
      key.drop m ++ (44 :: rest) := by
    rw [drop_append_plus, drop_append_of_le _ key m (by omega)]
  rw [hdrop]
  have htake : (key.drop m ++ (44 :: rest)).take ((sp2 ++ key).length -
      (sp2.length + m)) = key.drop m := by
    apply List.take_left'
    rw [List.length_drop]
    simp only [List.length_append]
    omega
  rw [htake]

theorem matchKeyAt_no_at (c : Nat) (rest : PyStr) (hc : c ≠ 64) :
    matchKeyAt (c :: rest) = none := by
  rw [matchKeyAt.eq_def]
  split
  · rename_i heq
    injection heq with h1 _
    exact absurd h1 hc
  · rfl

theorem reSearchKey_none (s : PyStr) (h : ∀ c ∈ s, c ≠ 64) :
    reSearchKey s = none := by
  induction s with
  | nil => rfl
  | cons c rest ih =>
    rw [reSearchKey, matchKeyAt_no_at c rest (h c (by simp)),
      ih fun d hd => h d (by simp [hd])]

theorem pystrip_drop (key : PyStr) (m : Nat)
    (hm : m ≤ (key.takeWhile isPySpace).length) :
    pystrip (key.drop m) = pystrip key := by
  rw [pystrip, pystrip, dropWhile_drop_of_le _ _ _ hm]

/-! ## Claim C4: citation-key extraction. -/

/-- Counterexample to claim C4 as stated: on input text not containing
the pattern, `extract_citation_key` returns Python `None` (here
`Option.none`), not the string `"no key found"`. -/
theorem claim_C4_counterexample :
    extract_citation_key (strOf "plain text, no record") = none ∧
    (none : Option PyStr) ≠ some (strOf "no key found") := by
  constructor
  · rfl
  · decide

/-- Claim C4 amended: for every input beginning with a well-formed
record header — the tag-open marker `@`, a non-empty record-type word,
optional whitespace, `\x7b`, optional whitespace, then a non-empty
comma-free `key` followed by `,` — extraction returns the key with
surrounding whitespace trimmed; and on input containing no `@` at all
(hence not containing the pattern) it returns Python `None` — not the
string `"no key found"` — and never raises. -/
theorem claim_C4_amended :
    (∀ tw sp1 sp2 key rest : PyStr, tw ≠ [] →
        (∀ c ∈ tw, isWordChar c = true) → (∀ c ∈ sp1, isPySpace c = true) →
        (∀ c ∈ sp2, isPySpace c = true) → key ≠ [] → (∀ c ∈ key, c ≠ 44) →
        extract_citation_key
            (64 :: (tw ++ (sp1 ++ (123 :: (sp2 ++ (key ++ (44 :: rest))))))) =
          some (pystrip key)) ∧
    (∀ s : PyStr, (∀ c ∈ s, c ≠ 64) → extract_citation_key s = none) := by
  constructor
  · intro tw sp1 sp2 key rest htw hw hs1 hs2 hk hnc
    rw [extract_citation_key, reSearchKey,
      matchKeyAt_wellformed tw sp1 sp2 key rest htw hw hs1 hs2 hk hnc]
    simp only [Option.map_some']
    rw [pystrip_drop key _ (Nat.min_le_left _ _)]
  · intro s h
    rw [extract_citation_key, reSearchKey_none s h]
    rfl

/-- Witness for the amended C4 on a concrete well-formed record header
(with whitespace around the key, which is trimmed away) and a concrete
pattern-free input. -/
theorem claim_C4_witness :
    extract_citation_key
        (64 :: (strOf "article" ++ ([] ++ (123 ::
          ([32] ++ (strOf "ein79" ++ (44 :: strOf "tail"))))))) =
      some (pystrip (strOf "ein79")) ∧
    extract_citation_key (strOf "no record here") = none :=
  ⟨claim_C4_amended.1 (strOf "article") [] [32] (strOf "ein79") (strOf "tail")
      (by decide) (by decide) (by decide) (by decide) (by decide) (by decide),
   claim_C4_amended.2 (strOf "no record here") (by decide)⟩

/-! ## Lemmas: the percent-encoding round trip. -/

theorem utf8Encode_bytes_lt (c : Nat) (h : c < 1114112) :
    ∀ b ∈ utf8Encode c, b < 256 := by
  intro b hb
  rw [utf8Encode] at hb
  by_cases h1 : c < 128
  · simp [h1] at hb
    omega
  · by_cases h2 : c < 2048
    · simp [h1, h2] at hb
      rcases hb with hb | hb <;> omega
    · by_cases h3 : c < 65536
      · simp [h1, h2, h3] at hb
        rcases hb with hb | hb | hb <;> omega
      · simp [h1, h2, h3] at hb
        rcases hb with hb | hb | hb | hb <;> omega

theorem hexDigitChar_isHex (n : Nat) (h : n < 16) :
    isHexDigit (hexDigitChar n) = true := by
  rw [hexDigitChar, isHexDigit]
  by_cases h1 : n < 10 <;> simp [h1] <;> omega

theorem hexVal_hexDigitChar (n : Nat) (h : n < 16) :
    hexVal (hexDigitChar n) = n := by
  rw [hexDigitChar, hexVal]
  by_cases h1 : n < 10
  · rw [if_pos h1, if_pos (by omega)]
    omega
  · rw [if_neg h1, if_neg (by omega), if_pos (by omega)]
    omega

theorem pdb_encodeByte (b : Nat) (rest : List Nat) (h : b < 256) :
    percentDecodeBytes (percentEncodeByte b ++ rest) =
      b :: percentDecodeBytes rest := by
  have h16a : b / 16 < 16 := by omega
  have h16b : b % 16 < 16 := by omega
  rw [percentEncodeByte, List.cons_append, List.cons_append, List.cons_append,
    List.nil_append, percentDecodeBytes,
    if_pos (by rw [hexDigitChar_isHex _ h16a, hexDigitChar_isHex _ h16b]; rfl),
    hexVal_hexDigitChar _ h16a, hexVal_hexDigitChar _ h16b]
  congr 1
  omega

theorem pdb_encodeBytes (bs : List Nat) (rest : List Nat)
    (h : ∀ b ∈ bs, b < 256) :
    percentDecodeBytes ((bs.map percentEncodeByte).flatten ++ rest) =
      bs ++ percentDecodeBytes rest := by
  induction bs with
  | nil => simp
  | cons b bs2 ih =>
    rw [List.map_cons, List.flatten_cons, List.append_assoc,
      pdb_encodeByte b _ (h b (by simp)), ih fun d hd => h d (by simp [hd])]
    rfl

theorem utf8Step_encode (c : Nat) (h : c < 1114112) (tail : List Nat) :
    ∃ b eb, utf8Encode c = b :: eb ∧ utf8Step b (eb ++ tail) = (c, tail) := by
  by_cases h1 : c < 128
  · refine ⟨c, [], by rw [utf8Encode, if_pos h1], ?_⟩
    rw [utf8Step, if_pos h1]
    simp
  · by_cases h2 : c < 2048
    · refine ⟨192 + c / 64, [128 + c % 64],
        by rw [utf8Encode, if_neg h1, if_pos h2], ?_⟩
      rw [utf8Step, if_neg (by omega), if_pos (by omega)]
      simp only [List.cons_append, List.nil_append, List.headD_cons,
        List.tail_cons, Prod.mk.injEq]
      exact ⟨by omega, trivial⟩
    · by_cases h3 : c < 65536
      · refine ⟨224 + c / 4096, [128 + c / 64 % 64, 128 + c % 64],
          by rw [utf8Encode, if_neg h1, if_neg h2, if_pos h3], ?_⟩
        rw [utf8Step, if_neg (by omega), if_neg (by omega), if_pos (by omega)]
        simp only [List.cons_append, List.nil_append, List.headD_cons,
          List.tail_cons, Prod.mk.injEq]
        exact ⟨by omega, trivial⟩
      · refine ⟨240 + c / 262144,
          [128 + c / 4096 % 64, 128 + c / 64 % 64, 128 + c % 64],
          by rw [utf8Encode, if_neg h1, if_neg h2, if_neg h3], ?_⟩
        rw [utf8Step, if_neg (by omega), if_neg (by omega), if_neg (by omega)]
        simp only [List.cons_append, List.nil_append, List.headD_cons,
          List.tail_cons, Prod.mk.injEq]
        exact ⟨by omega, trivial⟩

theorem utf8DecodeGo_flatten :
    ∀ (s : PyStr) (fuel : Nat), (∀ c ∈ s, c < 1114112) →
      ((s.map utf8Encode).flatten).length ≤ fuel →
      utf8DecodeGo fuel ((s.map utf8Encode).flatten) = s := by
  intro s
  induction s with
  | nil => intro fuel _ _; cases fuel <;> rfl
  | cons c s2 ih =>
    intro fuel h hlen
    obtain ⟨b, eb, he, hstep⟩ :=
      utf8Step_encode c (h c (by simp)) ((s2.map utf8Encode).flatten)
    rw [List.map_cons, List.flatten_cons, he, List.cons_append] at hlen ⊢
    cases fuel with
    | zero =>
      rw [List.length_cons] at hlen
      omega
    | succ g =>
      rw [utf8DecodeGo, hstep]
      simp only [List.length_cons, List.length_append] at hlen
      rw [ih g (fun d hd => h d (by simp [hd])) (by omega)]

theorem quoteSafe_lt (c : Nat) (h : isQuoteSafe c = true) : c < 128 := by
  simp only [isQuoteSafe, Bool.or_eq_true, Bool.and_eq_true,
    decide_eq_true_eq, beq_iff_eq] at h
  omega

theorem quoteSafe_ne37 (c : Nat) (h : isQuoteSafe c = true) : c ≠ 37 := by
  simp only [isQuoteSafe, Bool.or_eq_true, Bool.and_eq_true,
    decide_eq_true_eq, beq_iff_eq] at h
  omega

theorem pdb_quoteChar (c : Nat) (rest : PyStr) (h : c < 1114112) :
    percentDecodeBytes (quoteChar c ++ rest) =
      utf8Encode c ++ percentDecodeBytes rest := by
  rw [quoteChar]
  by_cases hs : isQuoteSafe c = true
  · rw [if_pos hs, List.singleton_append,
      percentDecodeBytes.eq_3 c rest fun _ _ _ hc _ => quoteSafe_ne37 c hs hc]
  · rw [if_neg hs, pdb_encodeBytes (utf8Encode c) rest (utf8Encode_bytes_lt c h)]

theorem pdb_pyquote (s : PyStr) (h : ∀ c ∈ s, c < 1114112) :
    percentDecodeBytes (pyquote s) = (s.map utf8Encode).flatten := by
  induction s with
  | nil => rfl
  | cons c s2 ih =>
    rw [pyquote, List.map_cons, List.flatten_cons, ← pyquote,
      pdb_quoteChar c _ (h c (by simp)), ih fun d hd => h d (by simp [hd]),
      List.map_cons, List.flatten_cons]

theorem pyunquote_pyquote (s : PyStr) (h : ∀ c ∈ s, c < 1114112) :
    pyunquote (pyquote s) = s := by
  rw [pyunquote, pdb_pyquote s h, utf8Decode,
    utf8DecodeGo_flatten s _ h le_rfl]

/-! ## Lemmas: splitting the joined query back into tokens. -/

theorem isPrefixOf_append_self :
    ∀ (a b : List Nat), a.isPrefixOf (a ++ b) = true := by
  intro a
  induction a with
  | nil => intro b; simp [List.isPrefixOf]
  | cons c a2 ih => intro b; simp [List.isPrefixOf, ih]

theorem splitGo_fuel_eq (sep : PyStr) (hsep : sep ≠ []) :
    ∀ (f1 f2 : Nat) (s : PyStr), s.length ≤ f1 → s.length ≤ f2 →
      splitGo sep f1 s = splitGo sep f2 s := by
  have hpos : 1 ≤ sep.length := List.length_pos.mpr hsep
  intro f1
  induction f1 with
  | zero =>
    intro f2 s h1 _
    have h0 : s = [] := by
      cases s with
      | nil => rfl
      | cons c rest => rw [List.length_cons] at h1; omega
    subst h0
    cases f2 <;> rfl
  | succ g1 ih =>
    intro f2 s h1 h2
    cases s with
    | nil => cases f2 <;> rfl
    | cons c rest =>
      rw [List.length_cons] at h1 h2
      cases f2 with
      | zero => omega
      | succ g2 =>
        rw [splitGo, splitGo]
        by_cases hc : (sep.isPrefixOf (c :: rest) && !sep.isEmpty) = true
        · rw [if_pos hc, if_pos hc,
            ih g2 (List.drop sep.length (c :: rest))
              (by rw [List.length_drop, List.length_cons]; omega)
              (by rw [List.length_drop, List.length_cons]; omega)]
        · rw [if_neg hc, if_neg hc, ih g2 rest (by omega) (by omega)]

theorem splitGo_nospace (stail : PyStr) :
    ∀ (fuel : Nat) (t : PyStr), (∀ c ∈ t, c ≠ 32) → t.length ≤ fuel →
      splitGo (32 :: stail) fuel t = [t] := by
  intro fuel
  induction fuel with
  | zero =>
    intro t _ h1
    cases t with
    | nil => rfl
    | cons c rest => rw [List.length_cons] at h1; omega
  | succ g ih =>
    intro t ht h1
    cases t with
    | nil => rfl
    | cons c rest =>
      rw [List.length_cons] at h1
      rw [splitGo, if_neg (by
        simp only [List.isPrefixOf, Bool.and_eq_true, beq_iff_eq]
        intro hcontra
        exact ht c (by simp) hcontra.1.1.symm),
        ih rest (fun d hd => ht d (by simp [hd])) (by omega)]
      rfl

theorem splitGo_token_sep (stail : PyStr) :
    ∀ (t : PyStr) (r : PyStr) (fuel : Nat), (∀ c ∈ t, c ≠ 32) →
      (t ++ ((32 :: stail) ++ r)).length ≤ fuel →
      splitGo (32 :: stail) fuel (t ++ ((32 :: stail) ++ r)) =
        t :: splitGo (32 :: stail) r.length r := by
  intro t
  induction t with
  | nil =>
    intro r fuel _ hlen
    rw [List.nil_append] at hlen ⊢
    rw [List.cons_append, List.length_cons, List.length_append] at hlen
    cases fuel with
    | zero => omega
    | succ g =>
      rw [List.cons_append, splitGo, if_pos (by
        rw [← List.cons_append, isPrefixOf_append_self]
        rfl)]
      rw [← List.cons_append, List.drop_left]
      rw [splitGo_fuel_eq (32 :: stail) (by simp) g r.length r
        (by omega) le_rfl]
  | cons c t2 ih =>
    intro r fuel hc hlen
    rw [List.cons_append, List.length_cons] at hlen
    cases fuel with
    | zero => omega
    | succ g =>
      rw [List.cons_append, splitGo, if_neg (by
        simp only [List.isPrefixOf, Bool.and_eq_true, beq_iff_eq]
        intro hcontra
        exact hc c (by simp) hcontra.1.1.symm),
        ih r g (fun d hd => hc d (by simp [hd])) (by omega)]
      rfl

theorem splitOnStr_pyjoin (stail : PyStr) :
    ∀ parts : List PyStr, parts ≠ [] → (∀ t ∈ parts, ∀ c ∈ t, c ≠ 32) →
      splitOnStr (32 :: stail) (pyjoin (32 :: stail) parts) = parts := by
  intro parts
  induction parts with
  | nil => intro h _; exact absurd rfl h
  | cons t rest ih =>
    intro _ hns
    cases rest with
    | nil =>
      rw [pyjoin, splitOnStr]
      exact splitGo_nospace stail t.length t (hns t (by simp)) le_rfl
    | cons u ps =>
      rw [pyjoin, splitOnStr, List.append_assoc]
      rw [splitGo_token_sep stail t (pyjoin (32 :: stail) (u :: ps))
        (t ++ ((32 :: stail) ++ pyjoin (32 :: stail) (u :: ps))).length
        (hns t (by simp)) le_rfl]
      rw [← splitOnStr, ih (by simp) fun w hw => hns w (by simp [hw])]

/-! ## Lemmas: Python whitespace splitting. -/

theorem pysplitAux_all_space (t : PyStr) (h : ∀ c ∈ t, isPySpace c = true) :
    ∀ acc : PyStr, pysplitAux acc t = if acc.isEmpty then [] else [acc.reverse] := by
  induction t with
  | nil => intro acc; rfl
  | cons c rest ih =>
    intro acc
    rw [pysplitAux, if_pos (h c (by simp))]
    by_cases hacc : acc.isEmpty = true
    · rw [if_pos hacc, if_pos hacc, ih (fun d hd => h d (by simp [hd])) []]
      rfl
    · rw [if_neg hacc, if_neg hacc, ih (fun d hd => h d (by simp [hd])) []]
      rfl

theorem pysplitAux_append_space (t : PyStr) (ht : ∀ c ∈ t, isPySpace c = true) :
    ∀ (s acc : PyStr), pysplitAux acc (s ++ t) = pysplitAux acc s := by
  intro s
  induction s with
  | nil =>
    intro acc
    rw [List.nil_append, pysplitAux_all_space t ht acc]
    rfl
  | cons c rest ih =>
    intro acc
    rw [List.cons_append, pysplitAux, pysplitAux]
    by_cases hc : isPySpace c = true
    · rw [if_pos hc, if_pos hc]
      by_cases hacc : acc.isEmpty = true
      · rw [if_pos hacc, if_pos hacc, ih []]
      · rw [if_neg hacc, if_neg hacc, ih []]
    · rw [if_neg hc, if_neg hc, ih (c :: acc)]

theorem pysplitAux_dropWhile (s : PyStr) :
    pysplitAux [] (s.dropWhile isPySpace) = pysplitAux [] s := by
  induction s with
  | nil => rfl
  | cons c rest ih =>
    rw [List.dropWhile_cons]
    by_cases hc : isPySpace c = true
    · rw [if_pos hc, ih, pysplitAux, if_pos hc]
      rfl
    · rw [if_neg hc]

theorem pysplit_pystrip (s : PyStr) : pysplit (pystrip s) = pysplit s := by
  have hu : s.dropWhile isPySpace =
      pystrip s ++ ((s.dropWhile isPySpace).reverse.takeWhile isPySpace).reverse := by
    rw [pystrip, ← List.reverse_append, List.takeWhile_append_dropWhile,
      List.reverse_reverse]
  rw [pysplit, pysplit, ← pysplitAux_dropWhile s, hu,
    pysplitAux_append_space _ (fun c hc => by
      rw [List.mem_reverse] at hc
      exact List.mem_takeWhile_imp hc) (pystrip s) []]

theorem pysplitAux_tokens_nospace :
    ∀ (s acc : PyStr), (∀ c ∈ acc, isPySpace c = false) →
      ∀ t ∈ pysplitAux acc s, ∀ c ∈ t, isPySpace c = false := by
  intro s
  induction s with
  | nil =>
    intro acc hacc t ht c hc
    rw [pysplitAux] at ht
    by_cases he : acc.isEmpty = true
    · rw [if_pos he] at ht
      simp at ht
    · rw [if_neg he] at ht
      simp only [List.mem_singleton] at ht
      subst ht
      exact hacc c (by rwa [List.mem_reverse] at hc)
  | cons c0 rest ih =>
    intro acc hacc t ht c hc
    rw [pysplitAux] at ht
    by_cases h0 : isPySpace c0 = true
    · rw [if_pos h0] at ht
      by_cases he : acc.isEmpty = true
      · rw [if_pos he] at ht
        exact ih [] (by simp) t ht c hc
      · rw [if_neg he] at ht
        rcases List.mem_cons.mp ht with ht | ht
        · subst ht
          exact hacc c (by rwa [List.mem_reverse] at hc)
        · exact ih [] (by simp) t ht c hc
    · rw [if_neg h0] at ht
      refine ih (c0 :: acc) ?_ t ht c hc
      intro d hd
      rcases List.mem_cons.mp hd with hd | hd
      · subst hd
        simpa using h0
      · exact hacc d hd

theorem pysplitAux_tokens_mem :
    ∀ (s acc : PyStr), ∀ t ∈ pysplitAux acc s, ∀ c ∈ t, c ∈ acc ∨ c ∈ s := by
  intro s
  induction s with
  | nil =>
    intro acc t ht c hc
    rw [pysplitAux] at ht
    by_cases he : acc.isEmpty = true
    · rw [if_pos he] at ht
      simp at ht
    · rw [if_neg he] at ht
      simp only [List.mem_singleton] at ht
      subst ht
      exact Or.inl (by rwa [List.mem_reverse] at hc)
  | cons c0 rest ih =>
    intro acc t ht c hc
    rw [pysplitAux] at ht
    by_cases h0 : isPySpace c0 = true
    · rw [if_pos h0] at ht
      by_cases he : acc.isEmpty = true
      · rw [if_pos he] at ht
        rcases ih [] t ht c hc with h | h
        · simp at h
        · exact Or.inr (by simp [h])
      · rw [if_neg he] at ht
        rcases List.mem_cons.mp ht with ht | ht
        · subst ht
          exact Or.inl (by rwa [List.mem_reverse] at hc)
        · rcases ih [] t ht c hc with h | h
          · simp at h
          · exact Or.inr (by simp [h])
    · rw [if_neg h0] at ht
      rcases ih (c0 :: acc) t ht c hc with h | h
      · rcases List.mem_cons.mp h with h | h
        · exact Or.inr (by simp [h])
        · exact Or.inl h
      · exact Or.inr (by simp [h])

theorem pyjoin_mem (sep : PyStr) :
    ∀ (parts : List PyStr) (c : Nat), c ∈ pyjoin sep parts →
      c ∈ sep ∨ ∃ t ∈ parts, c ∈ t := by
  intro parts
  induction parts with
  | nil => intro c hc; simp [pyjoin] at hc
  | cons t rest ih =>
    intro c hc
    cases rest with
    | nil =>
      rw [pyjoin] at hc
      exact Or.inr ⟨t, by simp, hc⟩
    | cons u ps =>
      rw [pyjoin] at hc
      rcases List.mem_append.mp hc with hc | hc
      · rcases List.mem_append.mp hc with hc | hc
        · exact Or.inr ⟨t, by simp, hc⟩
        · exact Or.inl hc
      · rcases ih c hc with h | ⟨w, hw, hcw⟩
        · exact Or.inl h
        · exact Or.inr ⟨w, by simp [hw], hcw⟩

/-! ## Claim C3: the query formatter round trip. -/

/-- Claim C3: for every query of Unicode code points, (a) a
whitespace-only (or empty) query formats to the empty string; (b) a
query with at least one token formats so that percent-decoding the
output and splitting it on `" AND "` yields exactly the original
whitespace-split tokens, in order, each prefixed by `all:`; and (c) the
formatter is deterministic. -/
theorem claim_C3 (q : PyStr) (hq : ∀ c ∈ q, c < 1114112) :
    ((∀ c ∈ q, isPySpace c = true) → format_arxiv_query q = []) ∧
    (pysplit q ≠ [] →
      splitOnStr (strOf " AND ") (pyunquote (format_arxiv_query q)) =
        (pysplit q).map fun w => strOf "all:" ++ w) ∧
    (∀ q2, q = q2 → format_arxiv_query q = format_arxiv_query q2) := by
  refine ⟨?_, ?_, fun q2 h => by rw [h]⟩
  · intro hsp
    have h1 : pysplit (pystrip q) = [] := by
      rw [pysplit_pystrip, pysplit, pysplitAux_all_space q hsp []]
      rfl
    simp [format_arxiv_query, h1]
  · intro hne
    have hform : format_arxiv_query q =
        pyquote (pyjoin (strOf " AND ")
          ((pysplit q).map fun w => strOf "all:" ++ w)) := by
      rw [format_arxiv_query]
      simp only [pysplit_pystrip]
      rw [if_neg (by simpa [List.isEmpty_iff] using hne)]
    have hbound : ∀ c ∈ pyjoin (strOf " AND ")
        ((pysplit q).map fun w => strOf "all:" ++ w), c < 1114112 := by
      intro c hc
      rcases pyjoin_mem _ _ c hc with h | ⟨t, ht, hct⟩
      · have h5 : c ∈ ([32, 65, 78, 68, 32] : List Nat) := h
        fin_cases h5 <;> omega
      · obtain ⟨w, hw, rfl⟩ := List.mem_map.mp ht
        rcases List.mem_append.mp hct with hca | hcw
        · have h4 : c ∈ ([97, 108, 108, 58] : List Nat) := hca
          fin_cases h4 <;> omega
        · rcases pysplitAux_tokens_mem q [] w hw c hcw with h0 | h0
          · simp at h0
          · exact hq c h0
    have hnospace : ∀ t ∈ (pysplit q).map (fun w => strOf "all:" ++ w),
        ∀ c ∈ t, c ≠ 32 := by
      intro t ht c hct
      obtain ⟨w, hw, rfl⟩ := List.mem_map.mp ht
      rcases List.mem_append.mp hct with hca | hcw
      · have h4 : c ∈ ([97, 108, 108, 58] : List Nat) := hca
        fin_cases h4 <;> omega
      · have hns := pysplitAux_tokens_nospace q [] (by simp) w hw c hcw
        intro h32
        rw [h32] at hns
        exact absurd hns (by decide)
    have hpartsne : (pysplit q).map (fun w => strOf "all:" ++ w) ≠ [] := by
      simpa using hne
    rw [hform, pyunquote_pyquote _ hbound]
    exact splitOnStr_pyjoin [65, 78, 68, 32] _ hpartsne hnospace

/-- Witness for C3 on the concrete query `"deep learning"` (two tokens)
and a whitespace-only query. -/
theorem claim_C3_witness :
    splitOnStr (strOf " AND ")
        (pyunquote (format_arxiv_query (strOf "deep learning"))) =
      [strOf "all:deep", strOf "all:learning"] ∧
    format_arxiv_query (strOf "   ") = [] := by
  constructor
  · have h := (claim_C3 (strOf "deep learning") (by decide)).2.1 (by decide)
    rw [h]
    decide
  · exact (claim_C3 (strOf "   ") (by decide)).1 (by decide)
